import Mathlib

/-!
Verification development for the `mips-egui-sim` repository: a shallow
embedding in Lean 4 of the MIPS-subset assembler (`src/assembler.rs`) and
simulator (`src/simulator.rs`, `src/instructions.rs`, `src/sim/cpu.rs`),
together with theorems settling the specification claims.

Machine-integer conventions of the embedding:
* `u32` values are `Nat` kept below `2 ^ 32` (reductions `% 4294967296`
  are written where the Rust code wraps);
* `i32` / `i16` values are `Int`; the Rust cast `x as u32` on a signed
  value is `u32ofInt`, the cast `x as i16` is `i16ofInt`.
Lean's `Int` division `/` and remainder `%` follow the Euclidean
convention (remainder is non-negative for a positive divisor), so for an
`i32` value `x`, two's-complement `x & 0xFFFF` equals `x % 65536` and the
arithmetic shift `x >> 16` equals `x / 65536`.
-/

/-- Rust `x as u32` applied to a signed integer: reinterpret mod `2 ^ 32`.
On an `i16` value this coincides with sign extension to 32 bits. -/
def u32ofInt (x : Int) : Nat := (x % 4294967296).toNat

/-- Rust `x as i16` applied to a wider signed integer: wrap into
`[-32768, 32767]`. -/
def i16ofInt (x : Int) : Int :=
  let r := x % 65536
  if r < 32768 then r else r - 65536

/-- Two's-complement `x & 0xFFFF` of an `i32` value (`assembler.rs`,
`li` expansion). -/
def i32Low16 (x : Int) : Int := x % 65536

/-- Arithmetic shift `x >> 16` of an `i32` value (`assembler.rs`,
`li` expansion). -/
def i32Shr16 (x : Int) : Int := x / 65536

/-- The register enumeration of `src/sim/cpu.rs` (the `registers.rs`
module the top-level draft imports is not included in the sources; the
spec describes the same 32-value enumeration). -/
inductive Register where
  | ZERO | AT | V0 | V1 | A0 | A1 | A2 | A3
  | T0 | T1 | T2 | T3 | T4 | T5 | T6 | T7
  | S0 | S1 | S2 | S3 | S4 | S5 | S6 | S7
  | T8 | T9 | K0 | K1 | GP | SP | FP | RA
deriving DecidableEq

/-- The fixed 5-bit index of each register (`#[repr(u32)]` discriminants
in `src/sim/cpu.rs`). -/
def Register.toIdx : Register → Nat
  | .ZERO => 0 | .AT => 1 | .V0 => 2 | .V1 => 3
  | .A0 => 4 | .A1 => 5 | .A2 => 6 | .A3 => 7
  | .T0 => 8 | .T1 => 9 | .T2 => 10 | .T3 => 11
  | .T4 => 12 | .T5 => 13 | .T6 => 14 | .T7 => 15
  | .S0 => 16 | .S1 => 17 | .S2 => 18 | .S3 => 19
  | .S4 => 20 | .S5 => 21 | .S6 => 22 | .S7 => 23
  | .T8 => 24 | .T9 => 25 | .K0 => 26 | .K1 => 27
  | .GP => 28 | .SP => 29 | .FP => 30 | .RA => 31

/-- `FromStr for Register` (`src/sim/cpu.rs`): textual register names.
`None` models `Err(CpuError::NoSuchRegister)`. -/
def parseRegisterName : String → Option Register
  | "$zero" => some .ZERO
  | "$0" => some .ZERO
  | "$at" => some .AT
  | "$v0" => some .V0
  | "$v1" => some .V1
  | "$a0" => some .A0
  | "$a1" => some .A1
  | "$a2" => some .A2
  | "$a3" => some .A3
  | "$t0" => some .T0
  | "$t1" => some .T1
  | "$t2" => some .T2
  | "$t3" => some .T3
  | "$t4" => some .T4
  | "$t5" => some .T5
  | "$t6" => some .T6
  | "$t7" => some .T7
  | "$s0" => some .S0
  | "$s1" => some .S1
  | "$s2" => some .S2
  | "$s3" => some .S3
  | "$s4" => some .S4
  | "$s5" => some .S5
  | "$s6" => some .S6
  | "$s7" => some .S7
  | "$t8" => some .T8
  | "$t9" => some .T9
  | "$k0" => some .K0
  | "$k1" => some .K1
  | "$gp" => some .GP
  | "$sp" => some .SP
  | "$fp" => some .FP
  | "$ra" => some .RA
  | _ => none

/-- The register file `RegFile([u32; 32])` of `src/sim/cpu.rs`
(lines 89-107). The `RegisterFile` used by `simulator.rs` lives in the
`registers.rs` module absent from the sources; per the spec (§4.5,
"register 0 pinned to 0") it has the same get/set contract, so this
single embedding serves both. -/
structure RegFile where
  regs : Nat → Nat

/-- `RegFile::get` (`src/sim/cpu.rs` lines 93-99): register 0 reads as 0,
any other register reads its array slot. -/
def RegFile.get (f : RegFile) (r : Register) : Nat :=
  if r.toIdx = 0 then 0 else f.regs r.toIdx

/-- `RegFile::set` (`src/sim/cpu.rs` lines 101-106): the store is skipped
when the index is 0, so the register file is returned unchanged. -/
def RegFile.set (f : RegFile) (r : Register) (v : Nat) : RegFile :=
  if r.toIdx ≠ 0 then ⟨Function.update f.regs r.toIdx v⟩ else f

/-- `RegFile::default()`: all 32 registers zero. -/
def RegFile.zeroed : RegFile := ⟨fun _ => 0⟩

/-- The primitive instruction variant. The assembler (`src/assembler.rs`
lines 79-101) stores immediates as `i32`; the executed form
(`src/instructions.rs` lines 113-169, imported by `simulator.rs`) stores
them as `i16`. A single `Int`-immediate type represents both; crossing
from the assembler's representation into the executed one is
`Instruction.asI16` below. -/
inductive Instruction where
  | AddImmediate (res : Register) (reg : Register) (imm : Int)
  | AddUnsigned (res : Register) (reg : Register) (ret : Register)
  | LoadUpperImmediate (res : Register) (imm : Int)
  | OrImmediate (res : Register) (reg : Register) (imm : Int)
  | SystemCall
deriving DecidableEq

/-- The representation change from the assembler's `i32` immediates to
the simulator's `i16` immediates (`Instruction` fields `imm: i16` in
`src/instructions.rs`): each immediate is reinterpreted with Rust's
`as i16`. -/
def Instruction.asI16 : Instruction → Instruction
  | .AddImmediate res reg imm => .AddImmediate res reg (i16ofInt imm)
  | .AddUnsigned res reg ret => .AddUnsigned res reg ret
  | .LoadUpperImmediate res imm => .LoadUpperImmediate res (i16ofInt imm)
  | .OrImmediate res reg imm => .OrImmediate res reg (i16ofInt imm)
  | .SystemCall => .SystemCall

/-- `SimulatorError` (`src/simulator.rs` lines 15-31). `RegisterError`
and `IoError` payloads are irrelevant to the claims and elided. -/
inductive SimulatorError where
  | RegisterError
  | UnknownSyscall (v0 : Nat)
  | Exit (code : Nat)
  | NoMoreInstructions
  | IoError
  | WrongInputType (s : String)
  | InvalidSystemTime
deriving DecidableEq

/-- The Unicode `White_Space` property, the character class used by
Rust's `str::trim`. -/
def isRustWhitespace (c : Char) : Bool :=
  c.toNat = 0x09 ∨ c.toNat = 0x0A ∨ c.toNat = 0x0B ∨ c.toNat = 0x0C ∨
  c.toNat = 0x0D ∨ c.toNat = 0x20 ∨ c.toNat = 0x85 ∨ c.toNat = 0xA0 ∨
  c.toNat = 0x1680 ∨ (0x2000 ≤ c.toNat ∧ c.toNat ≤ 0x200A) ∨
  c.toNat = 0x2028 ∨ c.toNat = 0x2029 ∨ c.toNat = 0x202F ∨
  c.toNat = 0x205F ∨ c.toNat = 0x3000

/-- Drop leading whitespace characters. -/
def trimLeadingWS (l : List Char) : List Char := l.dropWhile isRustWhitespace

/-- Drop trailing whitespace characters. -/
def trimTrailingWS (l : List Char) : List Char :=
  (l.reverse.dropWhile isRustWhitespace).reverse

/-- Rust `str::trim`: remove whitespace from BOTH ends (this is what
`Simulator::get_user_input`, `src/simulator.rs` line 88, applies to the
line read from stdin). -/
def rustTrim (s : String) : String := ⟨trimTrailingWS (trimLeadingWS s.data)⟩

/-- Removal of trailing whitespace only. This is the spec's phrase
"trim trailing whitespace" (§4.8 read_int), stated so the claim about
syscall 5 can be compared with the source's both-ends `rustTrim`. -/
def trimEndOnly (s : String) : String := ⟨trimTrailingWS s.data⟩

/-- Rust `str::parse::<u32>()`: an optional leading `+`, then one or
more ASCII digits, value below `2 ^ 32`; anything else is an error
(`None`). -/
def parseRustU32 (s : String) : Option Nat :=
  let ds := match s.data with
    | '+' :: rest => rest
    | cs => cs
  if ds = [] then none
  else if ds.all (fun c => c.isDigit) then
    let n := ds.foldl (fun acc c => acc * 10 + (c.toNat - 48)) 0
    if n < 4294967296 then some n else none
  else none

/-- The null-terminated read loop of syscall 4 (`src/simulator.rs`
lines 103-113): collect bytes from consecutive addresses until a zero
byte or a missing entry. The Rust loop runs over a finite `HashMap`, so
`mem.length + 1` steps of fuel always suffice (each continuing step
consumes a distinct present key). -/
def readCStr (mem : List (Nat × Nat)) (i : Nat) : Nat → List Nat
  | 0 => []
  | fuel + 1 =>
    match mem.lookup i with
    | some b => if b ≠ 0 then b :: readCStr mem (i + 1) fuel else []
    | none => []

/-- `BASE_TEXT_ADDR` (`src/assembler.rs` line 11). -/
def BASE_TEXT_ADDR : Nat := 0x00400000

/-- `BASE_DATA_ADDR` (`src/assembler.rs` line 12). -/
def BASE_DATA_ADDR : Nat := 0x10010000

/-- `MEMORY_SIZE` (`src/assembler.rs` line 13). -/
def MEMORY_SIZE : Nat := 64 * 1024

/-- `Simulator::handle_syscall` (`src/simulator.rs` lines 92-150),
with the environment passed explicitly: `line` is the stdin line an
invocation of `get_user_input` would read (before trimming), `millis`
the wall-clock milliseconds `SystemTime::now()` would report, `mem` the
simulator's byte memory. The returned `String` is what the call writes
to stdout. Syscall 4 renders its bytes one `Char` per byte; the UTF-8
replacement decoding of `String::from_utf8_lossy` is not modelled (no
claim depends on it). -/
def handle_syscall (f : RegFile) (line : String) (millis : Nat)
    (mem : List (Nat × Nat)) : Except SimulatorError (RegFile × String) :=
  let v0 := f.get .V0
  if v0 = 1 then
    .ok (f, Nat.repr (f.get .A0))
  else if v0 = 4 then
    -- `Address - Address` is `u32` subtraction; wrapping models the
    -- release-mode underflow the spec flags in §9.
    let offset := (f.get .A0 + 4294967296 - BASE_DATA_ADDR) % 4294967296
    let bytes := readCStr mem offset (mem.length + 1)
    .ok (f, ⟨bytes.map Char.ofNat⟩)
  else if v0 = 5 then
    let input := rustTrim line
    match parseRustU32 input with
    | some value => .ok (f.set .V0 value, "")
    | none => .error (.WrongInputType input)
  else if v0 = 10 then
    .error (.Exit 0)
  else if v0 = 17 then
    .error (.Exit (f.get .A0))
  else if v0 = 30 then
    let m64 := millis % 18446744073709551616
    let low := m64 % 4294967296
    let high := (m64 / 4294967296) % 4294967296
    .ok ((f.set .A0 low).set .A1 high, "")
  else
    .error (.UnknownSyscall v0)

/-- `Simulator::execute_instruction` (`src/simulator.rs` lines 55-81).
Immediates here are the simulator's `i16` values; `imm as u32` is
`u32ofInt`. Register arithmetic is wrapping 32-bit. -/
def execute_instruction (ins : Instruction) (f : RegFile) (line : String)
    (millis : Nat) (mem : List (Nat × Nat)) :
    Except SimulatorError (RegFile × String) :=
  match ins with
  | .AddImmediate res reg imm =>
    .ok (f.set res ((f.get reg + u32ofInt imm) % 4294967296), "")
  | .LoadUpperImmediate res imm =>
    .ok (f.set res ((u32ofInt imm * 65536) % 4294967296), "")
  | .OrImmediate res reg imm =>
    .ok (f.set res (Nat.lor (f.get reg) (u32ofInt imm)), "")
  | .SystemCall => handle_syscall f line millis mem
  | .AddUnsigned res reg ret =>
    .ok (f.set res ((f.get reg + f.get ret) % 4294967296), "")

/-- Sequential execution of an instruction list: the `step` loop of
`src/simulator.rs` (lines 152-161) over the text image produced by
`Assembler::get_instructions`, which places the `i`-th emitted
instruction at `BASE_TEXT_ADDR + 4 * i` and advances `pc` by 4 each
step, i.e. runs the list in order. Outputs are concatenated. -/
def runList (l : List Instruction) (f : RegFile) (line : String)
    (millis : Nat) (mem : List (Nat × Nat)) :
    Except SimulatorError (RegFile × String) :=
  match l with
  | [] => .ok (f, "")
  | ins :: rest => do
    let (f', out) ← execute_instruction ins f line millis mem
    let (f'', out') ← runList rest f' line millis mem
    .ok (f'', out ++ out')

/-- Directive kinds (`src/sim/tokenizer.rs` lines 5-14). -/
inductive Directive where
  | DataDirective | TextDirective | GlobalDirective
  | AsciiDirective | AsciizDirective | ByteDirective | WordDirective
deriving DecidableEq

/-- Modelled from the spec: the `Token` variant of the `lexer.rs` module,
which `src/assembler.rs` consumes but which is not among the provided
sources. Spec §3 gives its shape (`Directive`, `Register(name)`,
`Label(name, decl)`, `Number(signed 32-bit)`, `Operator(mnemonic)`,
`Text(value)`), matching every pattern `assembler.rs` matches on. -/
inductive Token where
  | Directive (kind : Directive)
  | Register (value : String)
  | Label (name : String) (decl : Bool)
  | Number (value : Int)
  | Operator (value : String)
  | Text (value : String)
deriving DecidableEq

/-- `Segment` (`src/assembler.rs` lines 15-19). -/
inductive Segment where
  | Text | Data
deriving DecidableEq

/-- `AssemblerError` (`src/assembler.rs` lines 21-41). The payloads of
`InvalidRegister` and `TokenizationFailed` are elided; note the variant
list has NO immediate-range error. -/
inductive AssemblerError where
  | UnknownDirective
  | InvalidToken
  | EntrypointMissing
  | InvalidInstruction
  | InvalidRegister
  | InvalidLabel
  | InvalidString
  | InvalidByteValue
  | TokenizationFailed
deriving DecidableEq

/-- `Symbol` (`src/assembler.rs` lines 43-46); named `AsmSymbol` because Lean already uses `Symbol`. -/
structure AsmSymbol where
  address : Nat
  segment : Segment
deriving DecidableEq

/-- The assembler state (`src/assembler.rs` lines 57-65). The
`HashMap<String, Symbol>` is embedded as a lookup function whose
`insert` overwrites. -/
structure Assembler where
  symbols : String → Option AsmSymbol
  data_addr : Nat
  text_addr : Nat
  entry_point : Option String
  memory : List Nat
  text_lines : List Instruction
  current_segment : Segment

/-- `HashMap::insert`: later insertions replace earlier entries. -/
def insertSymbol (tbl : String → Option AsmSymbol) (name : String)
    (sym : AsmSymbol) : String → Option AsmSymbol :=
  fun k => if k = name then some sym else tbl k

/-- `Assembler::new` (`src/assembler.rs` lines 104-114). -/
def Assembler.new : Assembler :=
  { symbols := fun _ => none
    data_addr := BASE_DATA_ADDR
    text_addr := BASE_TEXT_ADDR
    entry_point := none
    memory := List.replicate MEMORY_SIZE 0
    text_lines := []
    current_segment := .Text }

/-- `Assembler::parse_register` (`src/assembler.rs` lines 360-367):
next token must be a register token whose name parses. -/
def parse_register1 : List Token → Except AssemblerError (Register × List Token)
  | .Register v :: rest =>
    match parseRegisterName v with
    | some r => .ok (r, rest)
    | none => .error .InvalidRegister
  | _ => .error .InvalidInstruction

/-- `Assembler::parse_immediate` (`src/assembler.rs` lines 369-374):
next token must be a number; its value is returned UNCHECKED (there is
no 16-bit range test). -/
def parse_immediate1 : List Token → Except AssemblerError (Int × List Token)
  | .Number v :: rest => .ok (v, rest)
  | _ => .error .InvalidInstruction

/-- `Assembler::parse_label` (`src/assembler.rs` lines 376-381):
next token must be a label reference. -/
def parse_label1 : List Token → Except AssemblerError (String × List Token)
  | .Label name false :: rest => .ok (name, rest)
  | _ => .error .InvalidLabel

/-- `Assembler::expand_instruction` (`src/assembler.rs` lines 159-256).
The token list is the WHOLE source line as `assemble` passes it; the
first token must be an operator. Operand parsers consume tokens in
order; trailing tokens are ignored, exactly as the `Peekable` iterator
code does. -/
def expand_instruction (s : Assembler) (tokens : List Token) :
    Except AssemblerError (List Instruction) :=
  match tokens with
  | .Operator value :: rest =>
    if value = "syscall" then .ok [.SystemCall]
    else if value = "addi" then do
      let (res, rest) ← parse_register1 rest
      let (reg, rest) ← parse_register1 rest
      let (imm, _) ← parse_immediate1 rest
      .ok [.AddImmediate res reg imm]
    else if value = "addu" then do
      let (res, rest) ← parse_register1 rest
      let (reg, rest) ← parse_register1 rest
      let (ret, _) ← parse_register1 rest
      .ok [.AddUnsigned res reg ret]
    else if value = "lui" then do
      let (res, rest) ← parse_register1 rest
      let (imm, _) ← parse_immediate1 rest
      .ok [.LoadUpperImmediate res imm]
    else if value = "ori" then do
      let (res, rest) ← parse_register1 rest
      let (reg, rest) ← parse_register1 rest
      let (imm, _) ← parse_immediate1 rest
      .ok [.OrImmediate res reg imm]
    else if value = "move" then do
      let (res, rest) ← parse_register1 rest
      let (reg, _) ← parse_register1 rest
      .ok [.AddUnsigned res reg .ZERO]
    else if value = "li" then do
      let (res, rest) ← parse_register1 rest
      let (imm, _) ← parse_immediate1 rest
      if -32768 ≤ imm ∧ imm ≤ 32767 then
        .ok [.AddImmediate res .ZERO imm]
      else if i32Low16 imm = 0 then
        .ok [.LoadUpperImmediate res (i32Shr16 imm)]
      else
        let high := i32Shr16 imm + if i32Low16 imm ≥ 32768 then 1 else 0
        let low := i32Low16 imm
        .ok [.LoadUpperImmediate res high, .AddImmediate res res low]
    else if value = "la" then do
      let (res, rest) ← parse_register1 rest
      let (label, _) ← parse_label1 rest
      match s.symbols label with
      | none => .error .InvalidLabel
      | some sym =>
        let high := sym.address / 65536
        let low := sym.address % 65536
        .ok [.LoadUpperImmediate res (Int.ofNat high),
             .OrImmediate res res (Int.ofNat low)]
    else .error .InvalidInstruction
  | _ => .error .InvalidInstruction

/-- UTF-8 encoding of one character (the bytes `CString::from_str`
receives from a Rust `&str`). -/
def utf8EncodeChar (c : Char) : List Nat :=
  let n := c.toNat
  if n < 0x80 then [n]
  else if n < 0x800 then
    [0xC0 + n / 64, 0x80 + n % 64]
  else if n < 0x10000 then
    [0xE0 + n / 4096, 0x80 + n / 64 % 64, 0x80 + n % 64]
  else
    [0xF0 + n / 262144, 0x80 + n / 4096 % 64, 0x80 + n / 64 % 64,
     0x80 + n % 64]

/-- UTF-8 bytes of a string. -/
def utf8Bytes (s : String) : List Nat := (s.data.map utf8EncodeChar).flatten

/-- `self.memory.resize(max(len, end), 0)` followed by
`memory[start..end].copy_from_slice(bytes)` (`src/assembler.rs`
`.ascii` / `.asciiz` handling). -/
def memWriteBytes (mem : List Nat) (start : Nat) (bytes : List Nat) :
    List Nat :=
  let endOff := start + bytes.length
  let mem := if mem.length < endOff
    then mem ++ List.replicate (endOff - mem.length) 0 else mem
  mem.take start ++ bytes ++ mem.drop endOff

/-- The single-byte write of the `.byte` directive: resize if the offset
is past the end, then store. -/
def memWriteByte (mem : List Nat) (offset : Nat) (b : Nat) : List Nat :=
  let mem := if mem.length ≤ offset
    then mem ++ List.replicate (offset + 1 - mem.length) 0 else mem
  mem.set offset b

/-- The `while let Some(Token::Number ..)` loop of the `.byte` directive
(`src/assembler.rs` lines 338-355): consume numbers while the next token
is a number; any other token ends the loop silently. -/
def byteLoop (s : Assembler) : List Token → Except AssemblerError Assembler
  | .Number v :: rest =>
    if v < -128 ∨ v > 255 then .error .InvalidByteValue
    else
      let b := (v % 256).toNat
      let offset := s.data_addr - BASE_DATA_ADDR
      byteLoop { s with memory := memWriteByte s.memory offset b
                        data_addr := s.data_addr + 1 } rest
  | _ => .ok s

/-- `Assembler::handle_directive` (`src/assembler.rs` lines 284-358).
`.word` falls into the catch-all `UnknownDirective` arm. `CString`
construction fails exactly when the string contains an interior NUL. -/
def handle_directive (s : Assembler) (kind : Directive) (rest : List Token) :
    Except AssemblerError Assembler :=
  match kind with
  | .DataDirective => .ok { s with current_segment := .Data }
  | .TextDirective => .ok { s with current_segment := .Text }
  | .GlobalDirective =>
    match rest with
    | .Label name false :: _ => .ok { s with entry_point := some name }
    | _ => .error .EntrypointMissing
  | .AsciizDirective =>
    match rest with
    | .Text value :: _ =>
      if value.data.contains (Char.ofNat 0) then .error .InvalidString
      else
        let bytes := utf8Bytes value ++ [0]
        let start := s.data_addr - BASE_DATA_ADDR
        .ok { s with memory := memWriteBytes s.memory start bytes
                     data_addr := s.data_addr + bytes.length }
    | _ => .error .InvalidToken
  | .AsciiDirective =>
    match rest with
    | .Text value :: _ =>
      if value.data.contains (Char.ofNat 0) then .error .InvalidString
      else
        let bytes := utf8Bytes value
        let start := s.data_addr - BASE_DATA_ADDR
        .ok { s with memory := memWriteBytes s.memory start bytes
                     data_addr := s.data_addr + bytes.length }
    | _ => .error .InvalidToken
  | .ByteDirective => byteLoop s rest
  | .WordDirective => .error .UnknownDirective

/-- The label-declaration step at the top of the `assemble` loop
(`src/assembler.rs` lines 127-140): record the label at the CURRENT
cursor of the current segment, unconditionally overwriting any earlier
entry of the same name. -/
def recordLabel (s : Assembler) (name : String) : Assembler :=
  let addr := match s.current_segment with
    | .Data => s.data_addr
    | .Text => s.text_addr
  { s with symbols := insertSymbol s.symbols name ⟨addr, s.current_segment⟩ }

/-- The dispatch on the token after the optional label declaration
(`src/assembler.rs` lines 142-153). `origLine` is the full original
line, which is what `expand_instruction` receives. -/
def dispatchTokens (s : Assembler) (toks : List Token)
    (origLine : List Token) : Except AssemblerError Assembler :=
  match toks with
  | .Directive kind :: rest => handle_directive s kind rest
  | .Operator _ :: _ => do
    let expanded ← expand_instruction s origLine
    .ok { s with text_lines := s.text_lines ++ expanded }
  | [] => .ok s
  | _ => .error .InvalidToken

/-- One iteration of the `assemble` loop (`src/assembler.rs`
lines 120-154) on one token line. -/
def assembleStep (s : Assembler) (line : List Token) :
    Except AssemblerError Assembler :=
  match line with
  | .Label name true :: rest =>
    dispatchTokens (recordLabel s name) rest line
  | _ => dispatchTokens s line line

/-- `Assembler::assemble` (`src/assembler.rs` lines 117-157) over
already-tokenized lines (`tokenize` lives in the absent `lexer.rs`; its
output type is the token-line list). Diagnostic printing is ignored. -/
def assembleLines (s : Assembler) (lines : List (List Token)) :
    Except AssemblerError Assembler :=
  lines.foldlM assembleStep s

/-! Concrete states and token lines used by individual claim theorems. -/

/-- An `addi` line whose immediate 100000 is far outside signed 16 bits. -/
def addiBigLine : List Token :=
  [.Operator "addi", .Register "$t0", .Register "$t0", .Number 100000]

/-- One instruction line followed by a bare label declaration, both in
the text segment. -/
def textLabelLines : List (List Token) :=
  [[.Operator "addi", .Register "$t0", .Register "$t0", .Number 5],
   [.Label "L" true]]

/-- The assembler state after declaring the bare label `L` in the fresh
state (evaluated form of `assembleStep`). -/
def declLState : Assembler :=
  match assembleStep Assembler.new [.Label "L" true] with
  | .ok s => s
  | .error _ => Assembler.new

/-- A symbol table holding label `L` recorded in the TEXT segment at the
text base. -/
def textSymState : Assembler :=
  { Assembler.new with
    symbols := insertSymbol Assembler.new.symbols "L" ⟨0x00400000, .Text⟩ }

/-- A symbol table holding data label `msg` at the data base. -/
def dataSymState : Assembler :=
  { Assembler.new with
    symbols := insertSymbol Assembler.new.symbols "msg" ⟨0x10010000, .Data⟩ }

/-- A register file whose `$v0` selects syscall 5 (read_int). -/
def v0Is5 : RegFile := RegFile.zeroed.set .V0 5

/-- A register file whose `$v0` selects syscall 1 (print_int) and whose
`$a0` holds `0xFFFFFFFF`. -/
def printNegOne : RegFile := (RegFile.zeroed.set .V0 1).set .A0 4294967295

/-! Helper lemmas about the register file and the arithmetic of
immediates. -/

theorem RegFile.get_zero (f : RegFile) : f.get .ZERO = 0 := rfl

theorem RegFile.set_zero (f : RegFile) (v : Nat) : f.set .ZERO v = f := rfl

theorem Register.toIdx_eq_zero_iff (r : Register) : r.toIdx = 0 ↔ r = .ZERO := by
  cases r <;> simp [Register.toIdx]

theorem RegFile.get_set_self (f : RegFile) (r : Register) (v : Nat)
    (h : r ≠ .ZERO) : (f.set r v).get r = v := by
  have hidx : r.toIdx ≠ 0 := fun hz => h ((Register.toIdx_eq_zero_iff r).mp hz)
  simp [RegFile.set, RegFile.get, hidx, Function.update]

theorem u32ofInt_lt (x : Int) : u32ofInt x < 4294967296 := by
  unfold u32ofInt; omega

theorem i16ofInt_of_range (x : Int) (h1 : -32768 ≤ x) (h2 : x ≤ 32767) :
    i16ofInt x = x := by
  unfold i16ofInt
  simp only []
  split <;> omega

/-! Claim theorems. -/

/-- C6: in every simulator state reachable by any sequence of
instruction executions and syscalls, register 0 reads as 0, and every
write to register 0 is discarded without changing the register file at
all. The first clause holds of EVERY register file (so in particular of
every reachable one), the second shows writes to register 0 are no-ops,
and the third instantiates this for an arbitrary sequence of register
writes — the only way executions and syscalls touch the register
file. -/
theorem zero_register_invariant :
    (∀ f : RegFile, f.get .ZERO = 0) ∧
    (∀ (f : RegFile) (v : Nat), f.set .ZERO v = f) ∧
    (∀ (f : RegFile) (writes : List (Register × Nat)),
      (writes.foldl (fun acc p => acc.set p.1 p.2) f).get .ZERO = 0) :=
  ⟨fun _ => rfl, fun _ _ => rfl, fun _ _ => rfl⟩

theorem digitChar_isDigit (m : Nat) (h : m < 10) :
    (Nat.digitChar m).isDigit := by
  interval_cases m <;> decide

theorem toDigitsCore_chars (f : Nat) :
    ∀ (n : Nat) (l : List Char), ∀ c ∈ Nat.toDigitsCore 10 f n l,
      c ∈ l ∨ c.isDigit := by
  induction f with
  | zero => intro n l c hc; exact Or.inl hc
  | succ f ih =>
    intro n l c hc
    simp only [Nat.toDigitsCore] at hc
    split at hc
    · rcases List.mem_cons.mp hc with h | h
      · exact Or.inr (h ▸ digitChar_isDigit _ (Nat.mod_lt _ (by norm_num)))
      · exact Or.inl h
    · rcases ih _ _ c hc with h | h
      · rcases List.mem_cons.mp h with h | h
        · exact Or.inr (h ▸ digitChar_isDigit _ (Nat.mod_lt _ (by norm_num)))
        · exact Or.inl h
      · exact Or.inr h

theorem repr_chars_are_digits (n : Nat) :
    ∀ c ∈ (Nat.repr n).data, c.isDigit := by
  intro c hc
  have : c ∈ ([] : List Char) ∨ c.isDigit := by
    apply toDigitsCore_chars
    simpa [Nat.repr, Nat.toDigits, List.asString] using hc
  simpa using this

/-- C9: syscall 1 (print_int) writes the decimal rendering of the `u32`
value of `$a0` to stdout — the unsigned form, since the register file
stores unsigned 32-bit values; in particular `0xFFFFFFFF` prints as
`4294967295`, and the output never carries a minus sign. -/
theorem print_int_unsigned (f : RegFile) (line : String) (millis : Nat)
    (mem : List (Nat × Nat)) (h : f.get .V0 = 1) :
    handle_syscall f line millis mem = .ok (f, Nat.repr (f.get .A0)) ∧
    (f.get .A0 = 4294967295 →
      handle_syscall f line millis mem = .ok (f, "4294967295")) ∧
    (∀ c ∈ (Nat.repr (f.get .A0)).data, c.isDigit) := by
  refine ⟨?_, ?_, ?_⟩
  · unfold handle_syscall
    simp [h]
  · intro ha
    unfold handle_syscall
    simp [h, ha]
    rfl
  · exact fun c hc => repr_chars_are_digits _ c hc

/-- Witness for `print_int_unsigned`: the concrete register file with
`$v0 = 1`, `$a0 = 0xFFFFFFFF` makes syscall 1 print `4294967295`. -/
theorem print_int_unsigned_witness :
    printNegOne.get .V0 = 1 ∧
    handle_syscall printNegOne "" 0 [] = .ok (printNegOne, "4294967295") :=
  ⟨rfl, (print_int_unsigned printNegOne "" 0 [] rfl).2.1 rfl⟩

/-- C7 counterexample: executing `OrImmediate{res=$zero, reg=$t0,
imm=-1}` does NOT set `R[res]` to `R[reg] | sign_extend(-1)`: the write
to register 0 is discarded, so `$zero` still reads 0 while the claimed
value is `0xFFFFFFFF`. -/
theorem ori_zero_dest_counterexample :
    execute_instruction (.OrImmediate .ZERO .T0 (-1)) RegFile.zeroed "" 0 [] =
      .ok (RegFile.zeroed, "") ∧
    Nat.lor (RegFile.zeroed.get .T0) (u32ofInt (-1)) = 4294967295 ∧
    RegFile.zeroed.get .ZERO = 0 ∧ (0 : Nat) ≠ 4294967295 :=
  ⟨rfl, by decide, rfl, by decide⟩

/-- C7 amended: for every register state and 16-bit immediate,
`OrImmediate{res, reg, imm}` computes `R[reg] | sign_extend32(imm)`
(so `imm = -1` ORs with `0xFFFFFFFF`, not `0x0000FFFF`) and stores it in
`res` — PROVIDED `res` is not register 0; a write to register 0 is
discarded. -/
theorem ori_sign_extends (f : RegFile) (res reg : Register) (imm : Int)
    (line : String) (millis : Nat) (mem : List (Nat × Nat))
    (h1 : -32768 ≤ imm) (h2 : imm ≤ 32767) (h3 : res ≠ .ZERO) :
    execute_instruction (.OrImmediate res reg imm) f line millis mem =
      .ok (f.set res (Nat.lor (f.get reg) (u32ofInt imm)), "") ∧
    (f.set res (Nat.lor (f.get reg) (u32ofInt imm))).get res =
      Nat.lor (f.get reg) (u32ofInt imm) :=
  ⟨rfl, RegFile.get_set_self f res _ h3⟩

/-- Witness for `ori_sign_extends` at `res = $t1`, `reg = $t0`,
`imm = -1` on the zeroed register file: the stored value is
`0 | 0xFFFFFFFF = 4294967295`. -/
theorem ori_sign_extends_witness :
    (-32768 : Int) ≤ -1 ∧ (-1 : Int) ≤ 32767 ∧
    execute_instruction (.OrImmediate .T1 .T0 (-1)) RegFile.zeroed "" 0 [] =
      .ok (RegFile.zeroed.set .T1
        (Nat.lor (RegFile.zeroed.get .T0) (u32ofInt (-1))), "") ∧
    (RegFile.zeroed.set .T1
        (Nat.lor (RegFile.zeroed.get .T0) (u32ofInt (-1)))).get .T1 =
      Nat.lor (RegFile.zeroed.get .T0) (u32ofInt (-1)) ∧
    Nat.lor (RegFile.zeroed.get .T0) (u32ofInt (-1)) = 4294967295 :=
  ⟨by decide, by decide,
   (ori_sign_extends RegFile.zeroed .T1 .T0 (-1) "" 0 []
      (by decide) (by decide) (by decide)).1,
   (ori_sign_extends RegFile.zeroed .T1 .T0 (-1) "" 0 []
      (by decide) (by decide) (by decide)).2,
   by decide⟩

/-- C5 counterexample: an `addi` line with immediate 100000 (far outside
[-32768, 32767]) assembles successfully — no range check happens and no
`InvalidImmediateValue` error exists in `AssemblerError` at all; the
instruction carries the full value. -/
theorem addi_wide_imm_counterexample :
    ((assembleLines Assembler.new [addiBigLine]).toOption.map
      (fun s => s.text_lines)) = some [.AddImmediate .T0 .T0 100000] ∧
    ¬ (-32768 ≤ (100000 : Int) ∧ (100000 : Int) ≤ 32767) :=
  ⟨rfl, by decide⟩

/-- C5 amended: the immediate operands of `addi`, `lui` and `ori` are
accepted UNCHECKED — `parse_immediate` returns any 32-bit value, the
`AssemblerError` enumeration has no immediate-range variant, and
expansion succeeds carrying the full value, whatever it is. -/
theorem iformat_imm_unchecked (s : Assembler) (n1 n2 : String)
    (r1 r2 : Register) (imm : Int)
    (h1 : parseRegisterName n1 = some r1)
    (h2 : parseRegisterName n2 = some r2) :
    expand_instruction s [.Operator "addi", .Register n1, .Register n2,
        .Number imm] = .ok [.AddImmediate r1 r2 imm] ∧
    expand_instruction s [.Operator "ori", .Register n1, .Register n2,
        .Number imm] = .ok [.OrImmediate r1 r2 imm] ∧
    expand_instruction s [.Operator "lui", .Register n1, .Number imm] =
      .ok [.LoadUpperImmediate r1 imm] := by
  refine ⟨?_, ?_, ?_⟩ <;>
    simp [expand_instruction, parse_register1, parse_immediate1, h1, h2,
      Except.bind, bind]

/-- Witness for `iformat_imm_unchecked` at `$t0`, `$t1`, immediate
100000. -/
theorem iformat_imm_unchecked_witness :
    parseRegisterName "$t0" = some .T0 ∧
    parseRegisterName "$t1" = some .T1 ∧
    expand_instruction Assembler.new [.Operator "addi", .Register "$t0",
      .Register "$t1", .Number 100000] = .ok [.AddImmediate .T0 .T1 100000] :=
  ⟨rfl, rfl,
   (iformat_imm_unchecked Assembler.new "$t0" "$t1" .T0 .T1 100000 rfl rfl).1⟩

/-- C4 counterexample: with label `L` recorded in the TEXT segment, the
claim requires `la $t0, L` to fail with `InvalidLabel`; instead the
expansion succeeds (the recorded segment is never consulted) and the
text address is split into LUI/ORI halves. -/
theorem la_text_label_counterexample :
    textSymState.symbols "L" = some ⟨0x00400000, Segment.Text⟩ ∧
    expand_instruction textSymState
        [.Operator "la", .Register "$t0", .Label "L" false] =
      .ok [.LoadUpperImmediate .T0 64, .OrImmediate .T0 .T0 0] :=
  ⟨rfl, rfl⟩

/-- C4 amended: on a well-formed `la rd, L` line, expansion fails with
`InvalidLabel` iff `L` is absent from the symbol table — the symbol's
segment is NOT consulted, so text labels succeed like data labels; on
success it emits `LoadUpperImmediate` of the high 16 bits of the
address followed by `OrImmediate` of the low 16 bits. -/
theorem la_expansion (s : Assembler) (n : String) (rd : Register)
    (L : String) (h : parseRegisterName n = some rd) :
    (expand_instruction s [.Operator "la", .Register n, .Label L false] =
        .error .InvalidLabel ↔ s.symbols L = none) ∧
    (∀ sym, s.symbols L = some sym →
      expand_instruction s [.Operator "la", .Register n, .Label L false] =
        .ok [.LoadUpperImmediate rd (Int.ofNat (sym.address / 65536)),
             .OrImmediate rd rd (Int.ofNat (sym.address % 65536))]) := by
  constructor
  · cases hsym : s.symbols L with
    | none =>
      simp [expand_instruction, parse_register1, parse_label1, h, hsym,
        Except.bind, bind]
    | some sym =>
      simp [expand_instruction, parse_register1, parse_label1, h, hsym,
        Except.bind, bind]
  · intro sym hsym
    simp [expand_instruction, parse_register1, parse_label1, h, hsym,
      Except.bind, bind]

/-- Witness for `la_expansion`: a data label `msg` at the data base
expands to `LUI 0x1001` / `ORI 0`. -/
theorem la_expansion_witness :
    parseRegisterName "$a0" = some .A0 ∧
    dataSymState.symbols "msg" = some ⟨0x10010000, Segment.Data⟩ ∧
    expand_instruction dataSymState
        [.Operator "la", .Register "$a0", .Label "msg" false] =
      .ok [.LoadUpperImmediate .A0 (Int.ofNat (0x10010000 / 65536)),
           .OrImmediate .A0 .A0 (Int.ofNat (0x10010000 % 65536))] :=
  ⟨rfl, rfl,
   (la_expansion dataSymState "$a0" .A0 "msg" rfl).2 ⟨0x10010000, .Data⟩ rfl⟩

/-- C3 counterexample: `li $t0, 65537` (outside [-32768, 32767], low 16
bits nonzero) expands to `LUI` followed by `AddImmediate` — NOT the
`OrImmediate` the claim names (and in general with a carry added to the
upper half). -/
theorem li_wide_uses_addi_counterexample :
    expand_instruction Assembler.new
        [.Operator "li", .Register "$t0", .Number 65537] =
      .ok [.LoadUpperImmediate .T0 1, .AddImmediate .T0 .T0 1] ∧
    [Instruction.LoadUpperImmediate .T0 1, .AddImmediate .T0 .T0 1] ≠
      [Instruction.LoadUpperImmediate .T0 1, .OrImmediate .T0 .T0 1] ∧
    i32Shr16 65537 = 1 ∧ i16ofInt (i32Low16 65537) = 1 :=
  ⟨rfl, by decide, by decide, by decide⟩

/-- C3 amended: for every N outside [-32768, 32767] with nonzero low 16
bits, `li rd, N` expands to exactly
`LoadUpperImmediate{res=rd, imm=(N>>16) + (1 if bit 15 of N is set)}`
followed by `AddImmediate{res=rd, reg=rd, imm=N & 0xFFFF}` (the low half
kept as the non-negative value in [1, 65535], the carry compensating the
sign extension `addi` applies at execution). -/
theorem li_wide_expansion (s : Assembler) (n : String) (rd : Register)
    (N : Int) (h : parseRegisterName n = some rd)
    (hr : ¬ (-32768 ≤ N ∧ N ≤ 32767)) (hl : i32Low16 N ≠ 0) :
    expand_instruction s [.Operator "li", .Register n, .Number N] =
      .ok [.LoadUpperImmediate rd
             (i32Shr16 N + if i32Low16 N ≥ 32768 then 1 else 0),
           .AddImmediate rd rd (i32Low16 N)] := by
  simp [expand_instruction, parse_register1, parse_immediate1, h, hr, hl,
    Except.bind, bind]

/-- Witness for `li_wide_expansion` at `N = 98304 = 0x18000`: bit 15 is
set, so the upper half carries (`LUI 2`) and the low half is 32768. -/
theorem li_wide_expansion_witness :
    parseRegisterName "$t0" = some .T0 ∧
    ¬ (-32768 ≤ (98304 : Int) ∧ (98304 : Int) ≤ 32767) ∧
    i32Low16 98304 ≠ 0 ∧
    expand_instruction Assembler.new
        [.Operator "li", .Register "$t0", .Number 98304] =
      .ok [.LoadUpperImmediate .T0 2, .AddImmediate .T0 .T0 32768] :=
  ⟨rfl, by decide, by decide,
   li_wide_expansion Assembler.new "$t0" .T0 98304 rfl (by decide) (by decide)⟩

/-- C10: a repeated label declaration never fails — the declaration step
is an unconditional `insert` (first clause: processing a line that
starts with a declaration always proceeds to the normal dispatch on the
rewritten state, with no duplicate check); the second insertion of the
same name replaces the first (second clause); and a reference expanded
after both declarations resolves through the current table, i.e. to the
most recent entry (third clause, the `la` lookup). -/
theorem duplicate_labels_replace :
    (∀ (s : Assembler) (name : String) (rest : List Token),
      assembleStep s (.Label name true :: rest) =
        dispatchTokens (recordLabel s name) rest (.Label name true :: rest)) ∧
    (∀ (tbl : String → Option AsmSymbol) (name : String)
        (sym1 sym2 : AsmSymbol),
      insertSymbol (insertSymbol tbl name sym1) name sym2 name = some sym2) ∧
    (∀ (s : Assembler) (n L : String) (rd : Register) (sym : AsmSymbol),
      parseRegisterName n = some rd → s.symbols L = some sym →
      expand_instruction s [.Operator "la", .Register n, .Label L false] =
        .ok [.LoadUpperImmediate rd (Int.ofNat (sym.address / 65536)),
             .OrImmediate rd rd (Int.ofNat (sym.address % 65536))]) := by
  refine ⟨fun s name rest => rfl, fun tbl name sym1 sym2 => by
    simp [insertSymbol], fun s n L rd sym h hsym => ?_⟩
  simp [expand_instruction, parse_register1, parse_label1, h, hsym,
    Except.bind, bind]

/-- Witness for `duplicate_labels_replace`: after declaring `X` twice
the table holds the second symbol, and `la` resolves to it. -/
theorem duplicate_labels_replace_witness :
    insertSymbol (insertSymbol Assembler.new.symbols "X"
        ⟨0x10010000, .Data⟩) "X" ⟨0x10010007, .Data⟩ "X" =
      some ⟨0x10010007, .Data⟩ ∧
    parseRegisterName "$a0" = some .A0 ∧
    expand_instruction
        { Assembler.new with
          symbols := insertSymbol (insertSymbol Assembler.new.symbols "X"
            ⟨0x10010000, .Data⟩) "X" ⟨0x10010007, .Data⟩ }
        [.Operator "la", .Register "$a0", .Label "X" false] =
      .ok [.LoadUpperImmediate .A0 (Int.ofNat (0x10010007 / 65536)),
           .OrImmediate .A0 .A0 (Int.ofNat (0x10010007 % 65536))] :=
  ⟨duplicate_labels_replace.2.1 Assembler.new.symbols "X"
      ⟨0x10010000, .Data⟩ ⟨0x10010007, .Data⟩,
   rfl,
   duplicate_labels_replace.2.2 _ "$a0" "X" .A0 ⟨0x10010007, .Data⟩ rfl rfl⟩

/-- C8 counterexample: on the stdin line `" 42"` the claim's criterion —
the line with (only) trailing whitespace removed must parse — fails
(`" 42"` is not a valid `u32` literal), yet syscall 5 SUCCEEDS, because
`get_user_input` trims BOTH ends, leaving `"42"`; `$v0` receives 42. -/
theorem read_int_trims_both_ends_counterexample :
    handle_syscall v0Is5 " 42" 0 [] = .ok (v0Is5.set .V0 42, "") ∧
    parseRustU32 (trimEndOnly " 42") = none ∧
    (v0Is5.set .V0 42).get .V0 = 42 :=
  ⟨rfl, rfl, rfl⟩

/-- C8 amended: syscall 5 (read_int) succeeds iff the stdin line with
LEADING AND trailing whitespace removed parses as an unsigned 32-bit
decimal, in which case the parsed value is stored into `$v0`; otherwise
it fails with `WrongInputType` carrying the trimmed line. -/
theorem read_int_behaviour (f : RegFile) (line : String) (millis : Nat)
    (mem : List (Nat × Nat)) (h : f.get .V0 = 5) :
    (∀ v, parseRustU32 (rustTrim line) = some v →
      handle_syscall f line millis mem = .ok (f.set .V0 v, "") ∧
      (f.set .V0 v).get .V0 = v) ∧
    (parseRustU32 (rustTrim line) = none →
      handle_syscall f line millis mem =
        .error (.WrongInputType (rustTrim line))) := by
  constructor
  · intro v hv
    refine ⟨?_, RegFile.get_set_self f .V0 v (by decide)⟩
    unfold handle_syscall
    simp [h, hv]
  · intro hv
    unfold handle_syscall
    simp [h, hv]

/-- Witness for `read_int_behaviour` on the line `" 42"`: both-ends
trimming yields `"42"`, which parses, and `$v0` ends up 42. -/
theorem read_int_behaviour_witness :
    v0Is5.get .V0 = 5 ∧
    parseRustU32 (rustTrim " 42") = some 42 ∧
    handle_syscall v0Is5 " 42" 0 [] = .ok (v0Is5.set .V0 42, "") ∧
    (v0Is5.set .V0 42).get .V0 = 42 :=
  ⟨rfl, rfl,
   ((read_int_behaviour v0Is5 " 42" 0 [] rfl).1 42 rfl).1,
   ((read_int_behaviour v0Is5 " 42" 0 [] rfl).1 42 rfl).2⟩

theorem byteLoop_pres (toks : List Token) : ∀ (s s' : Assembler),
    byteLoop s toks = .ok s' →
    s'.text_addr = s.text_addr ∧ s'.symbols = s.symbols := by
  induction toks with
  | nil =>
    intro s s' h
    simp only [byteLoop] at h
    cases h
    exact ⟨rfl, rfl⟩
  | cons t rest ih =>
    intro s s' h
    cases t with
    | Number v =>
      simp only [byteLoop] at h
      split at h
      · cases h
      · simpa using ih _ _ h
    | Directive k => simp only [byteLoop] at h; cases h; exact ⟨rfl, rfl⟩
    | Register v => simp only [byteLoop] at h; cases h; exact ⟨rfl, rfl⟩
    | Label a b => simp only [byteLoop] at h; cases h; exact ⟨rfl, rfl⟩
    | Operator v => simp only [byteLoop] at h; cases h; exact ⟨rfl, rfl⟩
    | Text v => simp only [byteLoop] at h; cases h; exact ⟨rfl, rfl⟩

theorem handle_directive_pres (kind : Directive) (rest : List Token)
    (s s' : Assembler) (h : handle_directive s kind rest = .ok s') :
    s'.text_addr = s.text_addr ∧ s'.symbols = s.symbols := by
  cases kind with
  | DataDirective => cases h; exact ⟨rfl, rfl⟩
  | TextDirective => cases h; exact ⟨rfl, rfl⟩
  | GlobalDirective =>
    simp only [handle_directive] at h
    split at h
    · cases h; exact ⟨rfl, rfl⟩
    · cases h
  | AsciizDirective =>
    simp only [handle_directive] at h
    split at h
    · split at h
      · cases h
      · cases h; exact ⟨rfl, rfl⟩
    · cases h
  | AsciiDirective =>
    simp only [handle_directive] at h
    split at h
    · split at h
      · cases h
      · cases h; exact ⟨rfl, rfl⟩
    · cases h
  | ByteDirective => exact byteLoop_pres rest s s' h
  | WordDirective => cases h

theorem dispatchTokens_pres (toks orig : List Token) (s s' : Assembler)
    (h : dispatchTokens s toks orig = .ok s') :
    s'.text_addr = s.text_addr ∧ s'.symbols = s.symbols := by
  rcases toks with _ | ⟨t, rest⟩
  · cases h; exact ⟨rfl, rfl⟩
  · cases t with
    | Directive kind => exact handle_directive_pres kind rest s s' h
    | Operator v =>
      simp only [dispatchTokens] at h
      cases hex : expand_instruction s orig with
      | error e => rw [hex] at h; cases h
      | ok ins =>
        rw [hex] at h
        simp only [Except.bind, bind] at h
        cases h
        exact ⟨rfl, rfl⟩
    | Register v => cases h
    | Label a b => cases h
    | Number v => cases h
    | Text v => cases h

theorem assembleStep_text_addr (s s' : Assembler) (line : List Token)
    (h : assembleStep s line = .ok s') : s'.text_addr = s.text_addr := by
  unfold assembleStep at h
  split at h
  · exact (dispatchTokens_pres _ _ _ _ h).1
  · exact (dispatchTokens_pres _ _ _ _ h).1

theorem assembleLines_text_addr (lines : List (List Token)) :
    ∀ s s' : Assembler, assembleLines s lines = .ok s' →
      s'.text_addr = s.text_addr := by
  induction lines with
  | nil =>
    intro s s' h
    cases h
    rfl
  | cons l ls ih =>
    intro s s' h
    simp only [assembleLines, List.foldlM] at h
    cases hstep : assembleStep s l with
    | error e => rw [hstep] at h; cases h
    | ok s1 =>
      rw [hstep] at h
      simp only [Except.bind, bind] at h
      exact (ih s1 s' h).trans (assembleStep_text_addr s s1 l hstep)

/-- C2 counterexample: after one emitted instruction (`addi`), a label
declared in the text segment is recorded at `BASE_TEXT_ADDR` — not at
`BASE_TEXT_ADDR + 4·1` as the claim requires — because `text_addr` is
never advanced anywhere in `assemble` or `expand_instruction`. -/
theorem text_label_address_counterexample :
    ((assembleLines Assembler.new textLabelLines).toOption.bind
      (fun s => s.symbols "L")) = some ⟨BASE_TEXT_ADDR, Segment.Text⟩ ∧
    ((assembleLines Assembler.new textLabelLines).toOption.map
      (fun s => s.text_lines.length)) = some 1 ∧
    BASE_TEXT_ADDR ≠ BASE_TEXT_ADDR + 4 * 1 :=
  ⟨rfl, rfl, by decide⟩

/-- C2 amended: a label declared while the segment is Text is recorded
at the CURRENT `text_addr`, and `text_addr` is never advanced by any
assembly step — it stays at its initial `BASE_TEXT_ADDR` — so every
text label resolves to the text base, regardless of how many primitive
instructions were emitted before the declaration. -/
theorem text_label_gets_text_base :
    (∀ (s : Assembler) (lines : List (List Token)) (s' : Assembler),
      assembleLines s lines = .ok s' → s'.text_addr = s.text_addr) ∧
    Assembler.new.text_addr = BASE_TEXT_ADDR ∧
    (∀ (s : Assembler) (name : String) (rest : List Token) (s₂ : Assembler),
      s.current_segment = .Text →
      assembleStep s (.Label name true :: rest) = .ok s₂ →
      s₂.symbols name = some ⟨s.text_addr, .Text⟩) := by
  refine ⟨fun s lines s' h => assembleLines_text_addr lines s s' h, rfl,
    fun s name rest s₂ hseg h => ?_⟩
  have h' : dispatchTokens (recordLabel s name) rest
      (.Label name true :: rest) = .ok s₂ := h
  have hsym := (dispatchTokens_pres _ _ _ _ h').2
  rw [hsym]
  simp [recordLabel, insertSymbol, hseg]

/-- Witness for `text_label_gets_text_base`: declaring `L` on a line of
its own in the fresh (Text-segment) state records it at
`BASE_TEXT_ADDR = 0x00400000`. -/
theorem text_label_gets_text_base_witness :
    Assembler.new.current_segment = .Text ∧
    assembleStep Assembler.new [.Label "L" true] = .ok declLState ∧
    declLState.symbols "L" = some ⟨Assembler.new.text_addr, .Text⟩ :=
  ⟨rfl, rfl,
   text_label_gets_text_base.2.2 Assembler.new "L" [] declLState rfl rfl⟩

theorem li_small_exact (N : Int) (h1 : -32768 ≤ N) (h2 : N ≤ 32767) :
    (0 + u32ofInt (i16ofInt N)) % 4294967296 = u32ofInt N := by
  unfold u32ofInt i16ofInt
  simp only []
  split <;> omega

theorem lui_only_exact (N : Int) (h1 : -2147483648 ≤ N)
    (h2 : N < 2147483648) (h0 : i32Low16 N = 0) :
    (u32ofInt (i16ofInt (i32Shr16 N)) * 65536) % 4294967296 = u32ofInt N := by
  unfold u32ofInt i16ofInt i32Shr16
  unfold i32Low16 at h0
  simp only []
  split <;> omega

theorem li_carry_exact (N : Int) (h1 : -2147483648 ≤ N)
    (h2 : N < 2147483648) (h0 : i32Low16 N ≠ 0) :
    ((u32ofInt (i16ofInt (i32Shr16 N +
        if i32Low16 N ≥ 32768 then 1 else 0)) * 65536) % 4294967296 +
      u32ofInt (i16ofInt (i32Low16 N))) % 4294967296 = u32ofInt N := by
  unfold u32ofInt i16ofInt i32Shr16 i32Low16
  unfold i32Low16 at h0
  simp only []
  split <;> split <;> split <;> omega

/-- C1: for every 32-bit signed N, assembling the line `li rd, N`
(rd ≠ $zero) and executing its one- or two-instruction expansion leaves
rd holding exactly the 32-bit value of N. The assembler's `i32`
immediates cross into the simulator's `i16` instruction representation
(`instructions.rs`) via `Instruction.asI16`; execution then follows
`Simulator::execute_instruction`, whose `imm as u32` sign-extends. The
conclusion `u32ofInt N` is the 32-bit two's-complement image of N,
i.e. bit-exactness. -/
theorem li_bit_exact (s : Assembler) (n : String) (rd : Register) (N : Int)
    (f : RegFile) (line : String) (millis : Nat) (mem : List (Nat × Nat))
    (hreg : parseRegisterName n = some rd) (hrd : rd ≠ .ZERO)
    (hlo : -2147483648 ≤ N) (hhi : N < 2147483648) :
    ((expand_instruction s [.Operator "li", .Register n, .Number N]).toOption.bind
        (fun ins =>
          (runList (ins.map Instruction.asI16) f line millis mem).toOption)).map
      (fun p => p.1.get rd) = some (u32ofInt N) := by
  by_cases hA : -32768 ≤ N ∧ N ≤ 32767
  · have hexp : expand_instruction s
        [.Operator "li", .Register n, .Number N] =
        .ok [.AddImmediate rd .ZERO N] := by
      simp [expand_instruction, parse_register1, parse_immediate1, hreg, hA,
        Except.bind, bind]
    rw [hexp]
    simp only [Except.toOption, List.map, Instruction.asI16, runList,
      execute_instruction, Except.bind, bind, Option.bind, Option.map]
    rw [RegFile.get_set_self _ _ _ hrd, RegFile.get_zero]
    exact congrArg some (li_small_exact N hA.1 hA.2)
  · by_cases hB : i32Low16 N = 0
    · have hexp : expand_instruction s
          [.Operator "li", .Register n, .Number N] =
          .ok [.LoadUpperImmediate rd (i32Shr16 N)] := by
        simp [expand_instruction, parse_register1, parse_immediate1, hreg,
          hA, hB, Except.bind, bind]
      rw [hexp]
      simp only [Except.toOption, List.map, Instruction.asI16, runList,
        execute_instruction, Except.bind, bind, Option.bind, Option.map]
      rw [RegFile.get_set_self _ _ _ hrd]
      exact congrArg some (lui_only_exact N hlo hhi hB)
    · have hexp : expand_instruction s
          [.Operator "li", .Register n, .Number N] =
          .ok [.LoadUpperImmediate rd
                 (i32Shr16 N + if i32Low16 N ≥ 32768 then 1 else 0),
               .AddImmediate rd rd (i32Low16 N)] := by
        simp [expand_instruction, parse_register1, parse_immediate1, hreg,
          hA, hB, Except.bind, bind]
      rw [hexp]
      simp only [Except.toOption, List.map, Instruction.asI16, runList,
        execute_instruction, Except.bind, bind, Option.bind, Option.map]
      rw [RegFile.get_set_self _ _ _ hrd, RegFile.get_set_self _ _ _ hrd]
      exact congrArg some (li_carry_exact N hlo hhi hB)

/-- Witness for `li_bit_exact` at `N = 98304 = 0x18000` (the carry
case) in register `$t0` on the zeroed register file. -/
theorem li_bit_exact_witness :
    parseRegisterName "$t0" = some .T0 ∧ Register.T0 ≠ .ZERO ∧
    (-2147483648 : Int) ≤ 98304 ∧ (98304 : Int) < 2147483648 ∧
    ((expand_instruction Assembler.new
        [.Operator "li", .Register "$t0", .Number 98304]).toOption.bind
        (fun ins =>
          (runList (ins.map Instruction.asI16) RegFile.zeroed "" 0
            []).toOption)).map
      (fun p => p.1.get .T0) = some (u32ofInt 98304) ∧
    u32ofInt 98304 = 98304 :=
  ⟨rfl, by decide, by decide, by decide,
   li_bit_exact Assembler.new "$t0" .T0 98304 RegFile.zeroed "" 0 []
     rfl (by decide) (by decide) (by decide),
   by decide⟩
